import Mathlib

/-!
Shallow embedding of the FastAPI + MongoDB employee CRUD service
(`apicall.py`, `schemas.py`, `db.py`): the employee collection is a list of
BSON-like documents in natural (insertion) order, and each HTTP handler is a
function from its inputs and the collection state to a result together with
the successor collection state.
-/

/-- BSON value as far as the service distinguishes it: the aggregation
pipeline in `avg_salary_by_department` matches on `$type : "int"`, so the
model keeps integer-typed values apart from every other BSON type. -/
inductive BVal where
  | vint (n : Int)
  | vother
deriving DecidableEq, Repr

/-- An employee document as stored in MongoDB. `oid` models the generated
`_id`. The collection schema (`db.py`) requires `employee_id`, `name`,
`department`, `salary` and `joining_date`; `department`, `salary` and
`skills` are kept optional here because `list_employees`/`search_by_skill`
read them defensively and the aggregation pipeline filters on their
presence and type. -/
structure EDoc where
  oid : Nat
  employee_id : String
  name : String
  department : Option String
  salary : Option BVal
  joining_date : String
  skills : Option (List String)
deriving DecidableEq, Repr

/-- Request body of POST /employees (`schemas.EmployeeCreate`), after
pydantic has type-checked the fields. -/
structure EmployeeCreate where
  employee_id : String
  name : String
  department : String
  salary : Int
  joining_date : String
  skills : List String
deriving DecidableEq, Repr

/-- Request body of PUT /employees (`schemas.EmployeeUpdate`): every field
optional, `none` meaning the field was not supplied (the handler reads the
body with `exclude_unset=True`, so unsupplied fields never appear in the
`$set` document). -/
structure EmployeeUpdate where
  name : Option String
  department : Option String
  salary : Option Int
  joining_date : Option String
  skills : Option (List String)
deriving DecidableEq, Repr

/-- Response shape produced by `employee_helper` / `EmployeeOut`. -/
structure EOut where
  id : String
  employee_id : String
  name : String
  department : String
  salary : Int
  joining_date : String
  skills : List String
deriving DecidableEq, Repr

/-- Errors surfaced to the client: `validation` is a pydantic request
validation rejection (raised before the handler body runs), `http c m`
is `HTTPException(status_code=c, detail=m)`. -/
inductive ApiErr where
  | validation (msg : String)
  | http (code : Nat) (detail : String)
deriving DecidableEq, Repr

/-! ### Date pattern (`schemas.py`)

`DATE_RE = re.compile(r"^\d{4}-\d{2}-\d{2}$")`, used with `DATE_RE.match`.
The pattern is anchored on both sides; `$` in Python also matches just
before one trailing newline. `\d` is modelled as an ASCII digit. -/

/-- Exact match of the ten-character shape `\d{4}-\d{2}-\d{2}`. -/
def dateShape : List Char → Bool
  | [y1, y2, y3, y4, h1, m1, m2, h2, d1, d2] =>
      y1.isDigit && y2.isDigit && y3.isDigit && y4.isDigit &&
      (h1 == '-') && m1.isDigit && m2.isDigit &&
      (h2 == '-') && d1.isDigit && d2.isDigit
  | _ => false

/-- Boolean outcome of `DATE_RE.match(s)`: the anchored pattern, allowing
the single trailing newline that `$` tolerates. -/
def DATE_RE_match (s : String) : Bool :=
  dateShape s.data ||
    (match s.data.getLast? with
     | some c => (c == '\n') && dateShape s.data.dropLast
     | none => false)

/-- Validator `EmployeeCreate.check_date`: rejects `joining_date` values
that `DATE_RE` does not match. -/
def EmployeeCreate.check_date (v : String) : Except String String :=
  if DATE_RE_match v then .ok v else .error "joining_date must be YYYY-MM-DD"

/-- Pydantic validation of an `EmployeeCreate` body: the only custom
validator is `check_date` on `joining_date`; field types are enforced by
the structure itself. -/
def validate_employee_create (e : EmployeeCreate) : Except ApiErr EmployeeCreate :=
  match EmployeeCreate.check_date e.joining_date with
  | .ok _ => .ok e
  | .error msg => .error (.validation msg)

/-! ### Helpers (`apicall.py` lines 17-27) -/

/-- Translation of `employee_helper(doc)`: builds the response dict. It
reads `doc["department"]` and `doc["salary"]` unconditionally (a missing
key or a non-integer salary makes the response construction fail, surfaced
as a server error), and `doc.get("skills", [])` with a default. -/
def employee_helper (d : EDoc) : Option EOut :=
  match d.department, d.salary with
  | some dep, some (.vint n) =>
      some { id := toString d.oid, employee_id := d.employee_id, name := d.name,
             department := dep, salary := n, joining_date := d.joining_date,
             skills := d.skills.getD [] }
  | _, _ => none

/-- Document produced by `jsonable_encoder(emp)` plus the `_id` that
`insert_one` generates: every field of the body is present, salary stored
as a BSON int. -/
def encodeEmp (emp : EmployeeCreate) (oid : Nat) : EDoc :=
  { oid := oid, employee_id := emp.employee_id, name := emp.name,
    department := some emp.department, salary := some (.vint emp.salary),
    joining_date := emp.joining_date, skills := some emp.skills }

/-- Marshalling of a cursor's documents through `employee_helper`, in
order: the list comprehension `[employee_helper(doc) async for doc in
cursor]`; it fails as a whole (server error) when any single document
cannot be marshalled. -/
def marshalAll : List EDoc → Option (List EOut)
  | [] => some []
  | d :: ds =>
      match employee_helper d with
      | some o => (marshalAll ds).map (fun os => o :: os)
      | none => none

/-! ### POST /employees (`create_employee`, lines 85-92) -/

/-- Handler body of `create_employee`: `find_one` on `employee_id` as a
duplicate pre-check, then `insert_one` and a re-read by `_id`. Returns the
successor collection and the HTTP result; `newOid` is the `_id` MongoDB
generates for the insert. -/
def create_employee (emp : EmployeeCreate) (coll : List EDoc) (newOid : Nat) :
    List EDoc × Except ApiErr EOut :=
  match coll.find? (fun d => d.employee_id == emp.employee_id) with
  | some _ => (coll, .error (.http 400 "employee_id already exists"))
  | none =>
      let coll' := coll ++ [encodeEmp emp newOid]
      match coll'.find? (fun d => d.oid == newOid) with
      | some found =>
          match employee_helper found with
          | some out => (coll', .ok out)
          | none => (coll', .error (.http 500 "Internal Server Error"))
      | none => (coll', .error (.http 500 "Internal Server Error"))

/-- Full POST /employees pipeline: pydantic validation of the body, then
the handler. A body that fails validation never reaches the handler, so
the collection is unchanged. -/
def create_employee_endpoint (emp : EmployeeCreate) (coll : List EDoc) (newOid : Nat) :
    List EDoc × Except ApiErr EOut :=
  match validate_employee_create emp with
  | .error e => (coll, .error e)
  | .ok emp' => create_employee emp' coll newOid

/-! ### Sorting by joining_date descending

Every read endpoint sorts with `.sort("joining_date", -1)`; MongoDB
compares strings bytewise (UTF-8, which preserves code-point order). The
model compares code-point sequences lexicographically and sorts with
insertion sort under the reflexive descending order on `joining_date`. -/

/-- Lexicographic (code-point) comparison of character sequences:
`charsLe a b` is true iff `a` is less than or equal to `b`. -/
def charsLe : List Char → List Char → Bool
  | [], _ => true
  | _ :: _, [] => false
  | a :: as, b :: bs =>
      if a.toNat < b.toNat then true
      else if b.toNat < a.toNat then false
      else charsLe as bs

/-- Bytewise string order used by the store when sorting. -/
def strLe (a b : String) : Bool := charsLe a.data b.data

/-- Descending preorder on documents by `joining_date`. -/
def jdGe (a b : EDoc) : Prop := strLe b.joining_date a.joining_date = true

instance : DecidableRel jdGe := fun a b =>
  inferInstanceAs (Decidable (strLe b.joining_date a.joining_date = true))

/-- Result order of `.sort("joining_date", -1)`. -/
def sortByJoiningDesc (l : List EDoc) : List EDoc := List.insertionSort jdGe l

/-! ### GET /employees (`list_employees`, lines 94-104) -/

/-- Translation of `query = {"department": department} if department else {}`:
Python truthiness drops the filter both for `None` and for the empty
string. -/
def deptQuery (department : Option String) : EDoc → Bool :=
  match department with
  | none => fun _ => true
  | some dep => if dep = "" then fun _ => true else fun d => d.department == some dep

/-- MongoDB cursor `limit(n)`: `0` means no limit; a negative `n` behaves
like `|n|` (the cursor is just closed eagerly). -/
def mlimit (n : Int) (l : List EDoc) : List EDoc :=
  if n = 0 then l else l.take n.natAbs

/-- Handler `list_employees`: filter, sort descending, `skip((page-1)*size)`,
`limit(size)`, then `employee_helper` on each document. A negative skip
raises in the driver, surfaced as a server error. -/
def list_employees (department : Option String) (page size : Int) (coll : List EDoc) :
    Except ApiErr (List EOut) :=
  let skip := (page - 1) * size
  if skip < 0 then .error (.http 500 "Internal Server Error")
  else
    match marshalAll (mlimit size ((sortByJoiningDesc (coll.filter (deptQuery department))).drop skip.toNat)) with
    | some outs => .ok outs
    | none => .error (.http 500 "Internal Server Error")

/-! ### GET /employees/search (`search_by_skill`, lines 119-122) -/

/-- Match of the query `{"skills": skill}` on a document whose `skills`
field is an array (the stored shape): true iff the array contains the
value; a document without the field does not match. -/
def skillMatch (skill : String) (d : EDoc) : Bool :=
  match d.skills with
  | some l => l.contains skill
  | none => false

/-- Handler `search_by_skill`: filter on skills containment, sort by
`joining_date` descending, marshal through `employee_helper`. -/
def search_by_skill (skill : String) (coll : List EDoc) : Except ApiErr (List EOut) :=
  match marshalAll (sortByJoiningDesc (coll.filter (skillMatch skill))) with
  | some outs => .ok outs
  | none => .error (.http 500 "Internal Server Error")

/-! ### PUT /employees (`update_employee`, lines 131-139) -/

/-- True iff `emp.dict(exclude_unset=True)` is empty: no field supplied. -/
def EmployeeUpdate.isEmpty (u : EmployeeUpdate) : Bool :=
  u.name.isNone && u.department.isNone && u.salary.isNone &&
  u.joining_date.isNone && u.skills.isNone

/-- Effect of `$set` with the supplied fields on one document. -/
def applySet (u : EmployeeUpdate) (d : EDoc) : EDoc :=
  { d with
    name := u.name.getD d.name,
    department := match u.department with | some x => some x | none => d.department,
    salary := match u.salary with | some n => some (.vint n) | none => d.salary,
    joining_date := u.joining_date.getD d.joining_date,
    skills := match u.skills with | some l => some l | none => d.skills }

/-- MongoDB `update_one`: rewrites the first document matching the
predicate, returns `none` when `matched_count == 0`. -/
def updateFirst (p : EDoc → Bool) (f : EDoc → EDoc) : List EDoc → Option (List EDoc)
  | [] => none
  | d :: ds =>
      if p d then some (f d :: ds)
      else (updateFirst p f ds).map (fun t => d :: t)

/-- Handler `update_employee`: 400 when the partial body supplies no
fields, otherwise `update_one` with `$set` of the supplied fields, 404
when nothing matched. -/
def update_employee (employee_id : String) (u : EmployeeUpdate) (coll : List EDoc) :
    List EDoc × Except ApiErr String :=
  if u.isEmpty then (coll, .error (.http 400 "No fields provided for update"))
  else
    match updateFirst (fun d => d.employee_id == employee_id) (applySet u) coll with
    | some coll' => (coll', .ok "Employee updated")
    | none => (coll, .error (.http 404 "Employee not found"))

/-! ### GET /employees/avg-salary (`avg_salary_by_department`, lines 106-117) -/

/-- The `$match` stage: salary present and integer-typed, department
present. -/
def aggMatch (d : EDoc) : Bool :=
  (match d.salary with | some (.vint _) => true | _ => false) && d.department.isSome

/-- First-occurrence deduplication, keeping elements not already seen. -/
def dedupFirst (seen : List String) : List String → List String
  | [] => []
  | x :: xs => if x ∈ seen then dedupFirst seen xs else x :: dedupFirst (x :: seen) xs

/-- Group keys of the `$group` stage: distinct departments among the
matched documents (the model lists them in order of first appearance; the
store leaves the row order unspecified). -/
def aggDepts (coll : List EDoc) : List String :=
  dedupFirst [] ((coll.filter aggMatch).filterMap (fun d => d.department))

/-- Salaries contributing to one department group. -/
def salariesOf (coll : List EDoc) (dep : String) : List Int :=
  (coll.filter aggMatch).filterMap (fun d =>
    match d.department, d.salary with
    | some dp, some (.vint n) => if dp = dep then some n else none
    | _, _ => none)

/-- Mean of a list of integer salaries, as a rational: the value the
`$avg` accumulator produces for a group. -/
def meanOf (l : List Int) : Rat := (l.sum : Rat) / (l.length : Rat)

/-- Composite of `$avg` and `$round : 0` on one group: the mean
`sum / length` rounded to the nearest integer, half to even (the tie rule
of `$round`), computed in exact integer arithmetic: with `f = ⌊s/n⌋` and
remainder `r = s - n*f ∈ [0, n)`, the fractional part compares to one half
as `2*r` compares to `n`. -/
def roundedAvg (l : List Int) : Int :=
  let s := l.sum
  let n : Int := (l.length : Int)
  let f := s / n
  let r := s % n
  if 2 * r < n then f
  else if n < 2 * r then f + 1
  else if f % 2 = 0 then f else f + 1

/-- Handler `avg_salary_by_department`: the pipeline `$match`, `$group` by
department with `$avg` of salary, `$project` renaming to
`department`/`avg_salary` with `$round` to the nearest integer. A row is
modelled as the pair (department, avg_salary). -/
def avg_salary_by_department (coll : List EDoc) : List (String × Int) :=
  (aggDepts coll).map (fun dep => (dep, roundedAvg (salariesOf coll dep)))

/-! ### Token issuer/verifier and auth middleware

The module `auth.py` is imported by `apicall.py` but is not part of the
source tree here; its operations are modelled from the specification. -/

/-- Claims carried by a token: subject (username) and absolute expiry. -/
structure TokenData where
  sub : String
  exp : Nat
deriving DecidableEq, Repr

/-- Signed bearer token: payload plus a signature over the payload. -/
structure SignedToken where
  payload : TokenData
  sig : Nat
deriving DecidableEq, Repr

/-- Modelled from the spec: the signing primitive of the token issuer
(`auth.py`, missing from src/). The spec only requires a deterministic
signature over the payload under a process-wide secret key, checked on
verification; the concrete combination below is an arbitrary such
function. -/
def signPayload (key : Nat) (td : TokenData) : Nat :=
  (key + 1) * (2 * td.exp + 3) + td.sub.length

/-- Modelled from the spec: `issue(subject, ttl)` / `auth.create_access_token`
(missing from src/) produces a signed token embedding the subject and
absolute expiry = now + ttl. -/
def create_access_token (key : Nat) (sub : String) (now ttl : Nat) : SignedToken :=
  { payload := { sub := sub, exp := now + ttl }, sig := signPayload key { sub := sub, exp := now + ttl } }

/-- Modelled from the spec: `verify(token) -> subject | Invalid`
(`auth.py`, missing from src/): checks signature integrity and expiry; an
expired, malformed or badly signed token yields the single error
`Invalid`; a token is valid strictly before its expiry instant. -/
def verify_token (key now : Nat) (tok : SignedToken) : Except String String :=
  if tok.sig ≠ signPayload key tok.payload then .error "Invalid"
  else if tok.payload.exp ≤ now then .error "Invalid"
  else .ok tok.payload.sub

/-- A stored user record (`users` collection shape from `db.py`). -/
structure AuthUser where
  username : String
  email : String
  full_name : String
  hashed_password : String
  disabled : Bool
deriving DecidableEq, Repr

/-- Modelled from the spec: the auth middleware
`auth.get_current_active_user` (missing from src/). Per the specification
it verifies the bearer token and resolves the subject to a user, answering
401 when the token is invalid or the user is not found; its design note
records that the original never checks `disabled` after that initial
lookup, so no disabled check appears here. -/
def get_current_active_user (key now : Nat) (users : List AuthUser) (tok : SignedToken) :
    Except ApiErr AuthUser :=
  match verify_token key now tok with
  | .error _ => .error (.http 401 "Could not validate credentials")
  | .ok sub =>
      match users.find? (fun u => u.username == sub) with
      | some u => .ok u
      | none => .error (.http 401 "Could not validate credentials")

/-! ### Concrete sample data used by witnesses and counterexamples -/

/-- Sample stored employee: E1 in Eng, salary 100, joined 2023-01-01. -/
def dEng1 : EDoc :=
  { oid := 1, employee_id := "E1", name := "A", department := some "Eng",
    salary := some (.vint 100), joining_date := "2023-01-01", skills := some ["rust"] }

/-- Sample stored employee: E2 in Eng, salary 200, joined 2024-05-05. -/
def dEng2 : EDoc :=
  { oid := 2, employee_id := "E2", name := "B", department := some "Eng",
    salary := some (.vint 200), joining_date := "2024-05-05", skills := some [] }

/-- Sample stored employee: E3 in Sales, salary 50, joined 2022-03-03. -/
def dSales : EDoc :=
  { oid := 3, employee_id := "E3", name := "C", department := some "Sales",
    salary := some (.vint 50), joining_date := "2022-03-03", skills := some ["rust", "go"] }

/-- Create body reusing the already stored employee_id E1. -/
def empDupE1 : EmployeeCreate :=
  { employee_id := "E1", name := "Z", department := "Eng", salary := 1,
    joining_date := "2024-01-01", skills := [] }

/-- Create body with a fresh employee_id E4. -/
def empNewE4 : EmployeeCreate :=
  { employee_id := "E4", name := "D", department := "Ops", salary := 70,
    joining_date := "2024-02-02", skills := ["go"] }

/-- Create body whose joining_date "2024-13-01" is not a calendar date yet
matches the format pattern. -/
def empMonth13 : EmployeeCreate :=
  { employee_id := "E9", name := "M", department := "Eng", salary := 10,
    joining_date := "2024-13-01", skills := [] }

/-- Create body whose joining_date does not even match the pattern. -/
def empShortDate : EmployeeCreate :=
  { employee_id := "E8", name := "S", department := "Eng", salary := 10,
    joining_date := "2024-1-01", skills := [] }

/-- Partial update carrying only salary = 5000. -/
def updSalary5000 : EmployeeUpdate :=
  { name := none, department := none, salary := some 5000,
    joining_date := none, skills := none }

/-- Partial update carrying no field at all. -/
def updNothing : EmployeeUpdate :=
  { name := none, department := none, salary := none,
    joining_date := none, skills := none }

/-- Stored user whose disabled flag is set. -/
def userDisabled : AuthUser :=
  { username := "bob", email := "bob@x.io", full_name := "Bob",
    hashed_password := "h", disabled := true }

/-- Marshalled view of `dEng1`. -/
def outEng1 : EOut :=
  { id := "1", employee_id := "E1", name := "A", department := "Eng",
    salary := 100, joining_date := "2023-01-01", skills := ["rust"] }

/-- Marshalled view of `dEng2`. -/
def outEng2 : EOut :=
  { id := "2", employee_id := "E2", name := "B", department := "Eng",
    salary := 200, joining_date := "2024-05-05", skills := [] }

/-- Marshalled view of `dSales`. -/
def outSales : EOut :=
  { id := "3", employee_id := "E3", name := "C", department := "Sales",
    salary := 50, joining_date := "2022-03-03", skills := ["rust", "go"] }
theorem charsLe_total : ∀ as bs : List Char, charsLe as bs = true ∨ charsLe bs as = true := by
  intro as
  induction as with
  | nil => intro bs; exact Or.inl rfl
  | cons a as ih =>
      intro bs
      cases bs with
      | nil => exact Or.inr rfl
      | cons b bs =>
          by_cases hab : a.toNat < b.toNat
          · exact Or.inl (by simp [charsLe, hab])
          · by_cases hba : b.toNat < a.toNat
            · exact Or.inr (by simp [charsLe, hba, hab])
            · rcases ih bs with h | h
              · exact Or.inl (by simp [charsLe, hab, hba, h])
              · exact Or.inr (by simp [charsLe, hab, hba, h])

theorem charsLe_trans : ∀ as bs cs : List Char,
    charsLe as bs = true → charsLe bs cs = true → charsLe as cs = true := by
  intro as
  induction as with
  | nil => intro bs cs _ _; rfl
  | cons a as ih =>
      intro bs cs h1 h2
      cases bs with
      | nil => simp [charsLe] at h1
      | cons b bs =>
          cases cs with
          | nil => simp [charsLe] at h2
          | cons c cs =>
              simp only [charsLe] at h1 h2 ⊢
              by_cases hab : a.toNat < b.toNat <;> by_cases hbc : b.toNat < c.toNat
              · simp [Nat.lt_trans hab hbc]
              · simp only [hbc, if_false] at h2
                by_cases hcb : c.toNat < b.toNat
                · simp [hcb] at h2
                · have hbc' : b.toNat = c.toNat := Nat.le_antisymm (Nat.le_of_not_lt hcb) (Nat.le_of_not_lt hbc)
                  simp [hbc' ▸ hab]
              · simp only [hab, if_false] at h1
                by_cases hba : b.toNat < a.toNat
                · simp [hba] at h1
                · have hab' : a.toNat = b.toNat := Nat.le_antisymm (Nat.le_of_not_lt hba) (Nat.le_of_not_lt hab)
                  simp [hab' ▸ hbc]
              · simp only [hab, if_false] at h1
                simp only [hbc, if_false] at h2
                by_cases hba : b.toNat < a.toNat
                · simp [hba] at h1
                · by_cases hcb : c.toNat < b.toNat
                  · simp [hcb] at h2
                  · have hab' : a.toNat = b.toNat := Nat.le_antisymm (Nat.le_of_not_lt hba) (Nat.le_of_not_lt hab)
                    have hbc' : b.toNat = c.toNat := Nat.le_antisymm (Nat.le_of_not_lt hcb) (Nat.le_of_not_lt hbc)
                    have hac : ¬ a.toNat < c.toNat := by rw [hab', hbc']; exact Nat.lt_irrefl _
                    have hca : ¬ c.toNat < a.toNat := by rw [hab', hbc']; exact Nat.lt_irrefl _
                    simp only [hba, if_false] at h1
                    simp only [hcb, if_false] at h2
                    simp [hac, hca, ih bs cs h1 h2]

instance : IsTotal EDoc jdGe :=
  ⟨fun a b => (charsLe_total b.joining_date.data a.joining_date.data).imp id id⟩

instance : IsTrans EDoc jdGe :=
  ⟨fun _ _ _ hab hbc => charsLe_trans _ _ _ hbc hab⟩


/-! ### Generic lemmas about the store primitives -/

theorem marshalAll_eq_filterMap :
    ∀ {l : List EDoc}, (∀ x ∈ l, (employee_helper x).isSome = true) →
      marshalAll l = some (l.filterMap employee_helper) := by
  intro l
  induction l with
  | nil => intro _; rfl
  | cons a l ih =>
      intro h
      obtain ⟨b, hb⟩ := Option.isSome_iff_exists.mp (h a (List.mem_cons_self a l))
      have hr := ih (fun x hx => h x (List.mem_cons_of_mem a hx))
      simp [marshalAll, hb, hr, List.filterMap_cons]

theorem find?_append_singleton {α : Type} {p : α → Bool} {l : List α} {a : α}
    (h : ∀ x ∈ l, p x = false) (ha : p a = true) :
    (l ++ [a]).find? p = some a := by
  induction l with
  | nil => simp [List.find?, ha]
  | cons y ys ih =>
      have hy := h y (List.mem_cons_self y ys)
      simp only [List.cons_append, List.find?, hy]
      exact ih (fun x hx => h x (List.mem_cons_of_mem y hx))

theorem updateFirst_eq_none {p : EDoc → Bool} {f : EDoc → EDoc} :
    ∀ {l : List EDoc}, (∀ x ∈ l, p x = false) → updateFirst p f l = none := by
  intro l
  induction l with
  | nil => intro _; rfl
  | cons d ds ih =>
      intro h
      have hd := h d (List.mem_cons_self d ds)
      simp [updateFirst, hd, ih (fun x hx => h x (List.mem_cons_of_mem d hx))]

theorem updateFirst_split {p : EDoc → Bool} {f : EDoc → EDoc} {d : EDoc}
    (pre post : List EDoc) (hpre : ∀ x ∈ pre, p x = false) (hd : p d = true) :
    updateFirst p f (pre ++ d :: post) = some (pre ++ f d :: post) := by
  induction pre with
  | nil => simp [updateFirst, hd]
  | cons y ys ih =>
      have hy := hpre y (List.mem_cons_self y ys)
      have hrec := ih (fun x hx => hpre x (List.mem_cons_of_mem y hx))
      simp [updateFirst, hy, hrec]

theorem mem_dedupFirst : ∀ (l seen : List String) (x : String),
    x ∈ dedupFirst seen l ↔ (x ∈ l ∧ x ∉ seen) := by
  intro l
  induction l with
  | nil => intro seen x; simp [dedupFirst]
  | cons y ys ih =>
      intro seen x
      by_cases hy : y ∈ seen
      · simp only [dedupFirst, hy, if_true, ih, List.mem_cons]
        constructor
        · rintro ⟨hx, hns⟩
          exact ⟨Or.inr hx, hns⟩
        · rintro ⟨rfl | hx, hns⟩
          · exact absurd hy hns
          · exact ⟨hx, hns⟩
      · simp only [dedupFirst, hy, if_false, List.mem_cons, ih]
        constructor
        · rintro (rfl | ⟨hx, hns⟩)
          · exact ⟨Or.inl rfl, hy⟩
          · exact ⟨Or.inr hx, fun hc => hns (Or.inr hc)⟩
        · rintro ⟨rfl | hx, hns⟩
          · exact Or.inl rfl
          · by_cases hxy : x = y
            · exact Or.inl hxy
            · exact Or.inr ⟨hx, by simp [hxy, hns]⟩

theorem nodup_dedupFirst : ∀ (l seen : List String), (dedupFirst seen l).Nodup := by
  intro l
  induction l with
  | nil => intro seen; simp [dedupFirst]
  | cons y ys ih =>
      intro seen
      by_cases h : y ∈ seen
      · simpa [dedupFirst, h] using ih seen
      · simp only [dedupFirst, h, if_false, List.nodup_cons]
        refine ⟨fun hc => ?_, ih (y :: seen)⟩
        exact ((mem_dedupFirst ys (y :: seen) y).mp hc).2 (List.mem_cons_self y seen)

theorem roundedAvg_close {l : List Int} (hne : l ≠ []) :
    |(roundedAvg l : Rat) - meanOf l| ≤ 1 / 2 := by
  have hlen : 0 < l.length := List.length_pos.mpr hne
  have hnpos : (0 : Int) < (l.length : Int) := by exact_mod_cast hlen
  have hnz : (l.length : Int) ≠ 0 := ne_of_gt hnpos
  have hrnn : (0 : Int) ≤ l.sum % (l.length : Int) := Int.emod_nonneg l.sum hnz
  have hrlt : l.sum % (l.length : Int) < (l.length : Int) :=
    Int.emod_lt_of_pos l.sum hnpos
  have hdm : (l.length : Int) * (l.sum / (l.length : Int)) + l.sum % (l.length : Int) = l.sum :=
    Int.ediv_add_emod l.sum (l.length : Int)
  set F : Rat := ((l.sum / (l.length : Int) : Int) : Rat) with hF
  set R : Rat := ((l.sum % (l.length : Int) : Int) : Rat) with hR
  set N : Rat := ((l.length : Nat) : Rat) with hN
  have hNpos : (0 : Rat) < N := by rw [hN]; exact_mod_cast hlen
  have hNz : N ≠ 0 := ne_of_gt hNpos
  have hRnn : (0 : Rat) ≤ R := by rw [hR]; exact_mod_cast hrnn
  have hRlt : R < N := by rw [hR, hN]; exact_mod_cast hrlt
  have hSQ : ((l.sum : Int) : Rat) = N * F + R := by
    rw [hN, hF, hR]; exact_mod_cast hdm.symm
  have hmeanQ : meanOf l = F + R / N := by
    rw [meanOf, ← hN, hSQ]
    field_simp
    ring
  have hfrac_nn : (0 : Rat) ≤ R / N := div_nonneg hRnn hNpos.le
  have haux1 : 2 * (l.sum % (l.length : Int)) ≤ (l.length : Int) →
      |F - meanOf l| ≤ 1 / 2 := by
    intro hcond
    have hhalf : R / N ≤ 1 / 2 := by
      rw [div_le_div_iff₀ hNpos (by norm_num : (0 : Rat) < 2)]
      have : ((2 * (l.sum % (l.length : Int)) : Int) : Rat) ≤ ((l.length : Int) : Rat) := by
        exact_mod_cast hcond
      push_cast at this
      rw [hR, hN]
      linarith
    rw [hmeanQ, show F - (F + R / N) = -(R / N) by ring, abs_neg, abs_of_nonneg hfrac_nn]
    exact hhalf
  have haux2 : (l.length : Int) ≤ 2 * (l.sum % (l.length : Int)) →
      |F + 1 - meanOf l| ≤ 1 / 2 := by
    intro hcond
    have hge : 1 / 2 ≤ R / N := by
      rw [div_le_div_iff₀ (by norm_num : (0 : Rat) < 2) hNpos]
      have : ((l.length : Int) : Rat) ≤ ((2 * (l.sum % (l.length : Int)) : Int) : Rat) := by
        exact_mod_cast hcond
      push_cast at this
      rw [hR, hN]
      linarith
    have hle1 : R / N ≤ 1 := by rw [div_le_one hNpos]; exact hRlt.le
    rw [hmeanQ, show F + 1 - (F + R / N) = 1 - R / N by ring,
        abs_of_nonneg (by linarith)]
    linarith
  simp only [roundedAvg]
  split_ifs with h1 h2 h3
  · exact haux1 (le_of_lt h1)
  · have := haux2 (le_of_lt h2)
    rw [show (((l.sum / (l.length : Int) + 1 : Int)) : Rat) = F + 1 by rw [hF]; push_cast; ring]
    exact this
  · exact haux1 (le_of_not_lt h2)
  · have := haux2 (le_of_not_lt h1)
    rw [show (((l.sum / (l.length : Int) + 1 : Int)) : Rat) = F + 1 by rw [hF]; push_cast; ring]
    exact this

/-! ### Claim theorems -/

/-- C1: creating an employee whose employee_id is already stored fails with
the duplicate-key error (HTTP 400, the Conflict of the spec) and leaves the
collection unchanged; creating with a fresh employee_id appends the encoded
document and returns the stored record including the generated internal id. -/
theorem create_employee_spec (emp : EmployeeCreate) (coll : List EDoc) (newOid : Nat)
    (hfresh : ∀ d ∈ coll, d.oid ≠ newOid) :
    ((∃ d ∈ coll, d.employee_id = emp.employee_id) →
      create_employee emp coll newOid = (coll, .error (.http 400 "employee_id already exists")))
    ∧ ((∀ d ∈ coll, d.employee_id ≠ emp.employee_id) →
      create_employee emp coll newOid =
        (coll ++ [encodeEmp emp newOid],
         .ok { id := toString newOid, employee_id := emp.employee_id, name := emp.name,
               department := emp.department, salary := emp.salary,
               joining_date := emp.joining_date, skills := emp.skills })) := by
  constructor
  · rintro ⟨d, hd, heq⟩
    have hne : coll.find? (fun d => d.employee_id == emp.employee_id) ≠ none := by
      intro hnone
      rw [List.find?_eq_none] at hnone
      exact hnone d hd (by simp [heq])
    obtain ⟨w, hw⟩ := Option.ne_none_iff_exists'.mp hne
    simp [create_employee, hw]
  · intro hno
    have hnone : coll.find? (fun d => d.employee_id == emp.employee_id) = none := by
      rw [List.find?_eq_none]
      intro x hx
      simp [hno x hx]
    have hnone2 : coll.find? (fun d => d.oid == newOid) = none := by
      rw [List.find?_eq_none]
      intro x hx
      simp [hfresh x hx]
    simp [create_employee, hnone, hnone2, employee_helper, encodeEmp]

/-- C1 witness: at concrete inputs, creating a duplicate E1 fails with the
duplicate error leaving the collection as it was, and creating a fresh E4
inserts and returns the stored record with the generated id. -/
theorem create_employee_spec_check :
    create_employee empDupE1 [dEng1] 7 = ([dEng1], .error (.http 400 "employee_id already exists"))
    ∧ create_employee empNewE4 [dEng1] 7 =
        ([dEng1, encodeEmp empNewE4 7],
         .ok { id := toString 7, employee_id := "E4", name := "D", department := "Ops",
               salary := 70, joining_date := "2024-02-02", skills := ["go"] }) := by
  constructor
  · exact (create_employee_spec empDupE1 [dEng1] 7 (by decide)).1
      ⟨dEng1, by simp, by decide⟩
  · simpa using (create_employee_spec empNewE4 [dEng1] 7 (by decide)).2 (by decide)

/-- C2 counterexample: the create input with joining_date "2024-13-01" (not
a calendar date, but matching the format pattern) is accepted by the
validator and the record is inserted into the collection, refuting that no
create with joining_date "2024-13-01" ever inserts a record. -/
theorem create_month13_inserted :
    create_employee_endpoint empMonth13 [] 0 =
      ([encodeEmp empMonth13 0],
       .ok { id := toString 0, employee_id := "E9", name := "M", department := "Eng",
             salary := 10, joining_date := "2024-13-01", skills := [] }) := by
  rfl

/-- C2 (amended): the create endpoint rejects, before anything reaches
storage, exactly those bodies whose joining_date does not match the format
pattern of DATE_RE; "2024-13-01" matches the pattern, as only the digit
shape is checked, never calendar validity. -/
theorem create_rejects_nonmatching_date (emp : EmployeeCreate) (coll : List EDoc) (newOid : Nat)
    (h : DATE_RE_match emp.joining_date = false) :
    create_employee_endpoint emp coll newOid =
      (coll, .error (.validation "joining_date must be YYYY-MM-DD")) := by
  simp [create_employee_endpoint, validate_employee_create, EmployeeCreate.check_date, h]

/-- C2 witness: a body whose joining_date "2024-1-01" fails the pattern is
rejected with the validation error and the collection stays empty. -/
theorem create_rejects_nonmatching_date_check :
    create_employee_endpoint empShortDate [] 3 =
      ([], .error (.validation "joining_date must be YYYY-MM-DD")) :=
  create_rejects_nonmatching_date empShortDate [] 3 (by decide)

/-- C3: a partial update with at least one supplied field rewrites only the
first matching document by applying exactly the supplied fields: every
unsupplied field keeps its stored value (never nulled), a supplied salary
is stored as that integer, and all other documents are untouched. -/
theorem update_employee_partial_fields_spec (eid : String) (u : EmployeeUpdate)
    (pre post : List EDoc) (d : EDoc)
    (hne : u.isEmpty = false)
    (hpre : ∀ x ∈ pre, x.employee_id ≠ eid)
    (hd : d.employee_id = eid) :
    update_employee eid u (pre ++ d :: post) =
      (pre ++ applySet u d :: post, .ok "Employee updated")
    ∧ (u.name = none → (applySet u d).name = d.name)
    ∧ (u.department = none → (applySet u d).department = d.department)
    ∧ (u.salary = none → (applySet u d).salary = d.salary)
    ∧ (u.joining_date = none → (applySet u d).joining_date = d.joining_date)
    ∧ (u.skills = none → (applySet u d).skills = d.skills)
    ∧ (∀ n : Int, u.salary = some n → (applySet u d).salary = some (.vint n)) := by
  refine ⟨?_, ?_, ?_, ?_, ?_, ?_, ?_⟩
  · rw [update_employee, if_neg (by simp [hne])]
    rw [updateFirst_split pre post (fun x hx => by simp [hpre x hx]) (by simp [hd])]
  · intro h; simp [applySet, h]
  · intro h; simp [applySet, h]
  · intro h; simp [applySet, h]
  · intro h; simp [applySet, h]
  · intro h; simp [applySet, h]
  · intro n h; simp [applySet, h]

/-- C3 witness: updating stored E1 with only salary = 5000 leaves name,
department, skills and joining_date unchanged, sets salary to 5000, and
leaves the other document untouched. -/
theorem update_employee_partial_fields_spec_check :
    update_employee "E1" updSalary5000 ([] ++ dEng1 :: [dEng2]) =
      ([] ++ applySet updSalary5000 dEng1 :: [dEng2], .ok "Employee updated")
    ∧ (applySet updSalary5000 dEng1).name = dEng1.name
    ∧ (applySet updSalary5000 dEng1).department = dEng1.department
    ∧ (applySet updSalary5000 dEng1).joining_date = dEng1.joining_date
    ∧ (applySet updSalary5000 dEng1).skills = dEng1.skills
    ∧ (applySet updSalary5000 dEng1).salary = some (.vint 5000) := by
  have h := update_employee_partial_fields_spec "E1" updSalary5000 [] [dEng2] dEng1
    (by decide) (by decide) (by decide)
  exact ⟨h.1, h.2.1 rfl, h.2.2.1 rfl, h.2.2.2.2.1 rfl, h.2.2.2.2.2.1 rfl,
    h.2.2.2.2.2.2 5000 rfl⟩

/-- C6: the update endpoint fails with the 400 "no fields" error exactly
when the partial body supplies no field; with fields supplied but no
document matching the employee_id it fails 404; in both failure cases the
collection is returned unchanged. -/
theorem update_employee_error_spec (eid : String) (u : EmployeeUpdate) (coll : List EDoc) :
    (((update_employee eid u coll).2 = .error (.http 400 "No fields provided for update")) ↔
      u.isEmpty = true)
    ∧ (u.isEmpty = true →
        update_employee eid u coll = (coll, .error (.http 400 "No fields provided for update")))
    ∧ (u.isEmpty = false → (∀ d ∈ coll, d.employee_id ≠ eid) →
        update_employee eid u coll = (coll, .error (.http 404 "Employee not found"))) := by
  refine ⟨⟨?_, ?_⟩, ?_, ?_⟩
  · intro h
    cases hu : u.isEmpty with
    | true => rfl
    | false =>
        rw [update_employee, if_neg (by simp [hu])] at h
        cases hres : updateFirst (fun d => d.employee_id == eid) (applySet u) coll with
        | some coll' => rw [hres] at h; simp at h
        | none => rw [hres] at h; simp at h
  · intro hu
    simp [update_employee, hu]
  · intro hu
    simp [update_employee, hu]
  · intro hu hno
    rw [update_employee, if_neg (by simp [hu]),
      updateFirst_eq_none (fun x hx => by simp [hno x hx])]

/-- C6 witness: at concrete inputs, the empty update on stored E1 fails 400
and an update of unknown E7 with a supplied salary fails 404, both leaving
the collection unchanged. -/
theorem update_employee_error_spec_check :
    update_employee "E1" updNothing [dEng1] =
      ([dEng1], .error (.http 400 "No fields provided for update"))
    ∧ update_employee "E7" updSalary5000 [dEng1] =
      ([dEng1], .error (.http 404 "Employee not found")) :=
  ⟨(update_employee_error_spec "E1" updNothing [dEng1]).2.1 (by decide),
   (update_employee_error_spec "E7" updSalary5000 [dEng1]).2.2 (by decide) (by decide)⟩

/-- C10: calling the list endpoint with department equal to the empty
string behaves exactly like calling it with no department at all: Python
truthiness drops the filter, so employees of every department return. -/
theorem list_employees_empty_department_unfiltered (page size : Int) (coll : List EDoc) :
    list_employees (some "") page size coll = list_employees none page size coll := rfl

/-- C4 counterexample: with size = 0, which the claim allows (size ≥ 0),
the endpoint hands limit(0) to the store, and in MongoDB a limit of zero
means no limit: listing a one-document collection with page 1 and size 0
returns that document, one more than the at-most-zero the claim permits. -/
theorem list_employees_size_zero_returns_all :
    list_employees none 1 0 [dEng1] = .ok [outEng1]
    ∧ ¬ (([outEng1] : List EOut).length ≤ (0 : Int).toNat) :=
  ⟨rfl, by decide⟩

/-- C4 (amended): for page ≥ 1 and size ≥ 1, over a collection whose
documents all marshal, the list endpoint returns the documents matching
the department query (the empty-string department counting as no filter,
and no filter at all when none is given), sorted by joining_date
descending, after skipping the first (page-1)*size of them and taking at
most size; for size = 0 the store treats limit(0) as no limit, so the
at-most-size bound holds only from size ≥ 1 on. -/
theorem list_employees_pagination_spec (department : Option String) (page size : Int)
    (coll : List EDoc)
    (hwf : ∀ d ∈ coll, (employee_helper d).isSome = true)
    (hpage : 1 ≤ page) (hsize : 1 ≤ size) :
    (sortByJoiningDesc (coll.filter (deptQuery department))).Perm
        (coll.filter (deptQuery department))
    ∧ (sortByJoiningDesc (coll.filter (deptQuery department))).Pairwise jdGe
    ∧ list_employees department page size coll =
        .ok ((((sortByJoiningDesc (coll.filter (deptQuery department))).drop
            ((page - 1) * size).toNat).take size.toNat).filterMap employee_helper)
    ∧ (∀ outs, list_employees department page size coll = .ok outs →
        outs.length ≤ size.toNat) := by
  have hperm : (sortByJoiningDesc (coll.filter (deptQuery department))).Perm
      (coll.filter (deptQuery department)) := List.perm_insertionSort jdGe _
  have hsorted : (sortByJoiningDesc (coll.filter (deptQuery department))).Pairwise jdGe :=
    List.sorted_insertionSort jdGe _
  have hskip : ¬ ((page - 1) * size < 0) :=
    not_lt.mpr (mul_nonneg (by linarith) (by linarith))
  have hsz : size ≠ 0 := by omega
  have habs : size.natAbs = size.toNat := by omega
  have hmem : ∀ x ∈ ((sortByJoiningDesc (coll.filter (deptQuery department))).drop
      ((page - 1) * size).toNat).take size.natAbs, (employee_helper x).isSome = true := by
    intro x hx
    exact hwf x (List.mem_of_mem_filter
      (hperm.subset (List.drop_subset _ _ (List.take_subset _ _ hx))))
  have heq : list_employees department page size coll =
      .ok ((((sortByJoiningDesc (coll.filter (deptQuery department))).drop
          ((page - 1) * size).toNat).take size.toNat).filterMap employee_helper) := by
    rw [list_employees]
    simp only [hskip, if_false]
    rw [mlimit, if_neg hsz, habs] at *
    rw [marshalAll_eq_filterMap (habs ▸ hmem)]
  refine ⟨hperm, hsorted, heq, ?_⟩
  intro outs houts
  rw [heq] at houts
  have houts' := (Except.ok.inj houts).symm
  rw [houts']
  calc ((((sortByJoiningDesc (coll.filter (deptQuery department))).drop
        ((page - 1) * size).toNat).take size.toNat).filterMap employee_helper).length
      ≤ (((sortByJoiningDesc (coll.filter (deptQuery department))).drop
        ((page - 1) * size).toNat).take size.toNat).length := by
        apply List.length_filterMap_le
    _ ≤ size.toNat := by
        rw [List.length_take]
        exact min_le_left _ _

/-- C4 witness: listing Eng with page 2 and size 1 over two Eng employees
returns exactly the second newest one, and its length respects the size
bound. -/
theorem list_employees_pagination_spec_check :
    list_employees (some "Eng") 2 1 [dEng1, dEng2] = .ok [outEng1]
    ∧ ([outEng1] : List EOut).length ≤ (1 : Int).toNat := by
  have h := list_employees_pagination_spec (some "Eng") 2 1 [dEng1, dEng2]
    (by decide) (by decide) (by decide)
  refine ⟨?_, ?_⟩
  · rw [h.2.2.1]; rfl
  · exact h.2.2.2 [outEng1] (by rw [h.2.2.1]; rfl)

/-- C9: over a collection whose documents all marshal, the search endpoint
returns exactly the marshalled documents whose skills array contains the
given value, every returned document matches the skill, and the result
order is a joining_date-descending permutation of those matches. -/
theorem search_by_skill_spec (skill : String) (coll : List EDoc)
    (hwf : ∀ d ∈ coll, (employee_helper d).isSome = true) :
    (sortByJoiningDesc (coll.filter (skillMatch skill))).Perm (coll.filter (skillMatch skill))
    ∧ (sortByJoiningDesc (coll.filter (skillMatch skill))).Pairwise jdGe
    ∧ (∀ d ∈ sortByJoiningDesc (coll.filter (skillMatch skill)), skillMatch skill d = true)
    ∧ search_by_skill skill coll =
        .ok ((sortByJoiningDesc (coll.filter (skillMatch skill))).filterMap employee_helper) := by
  have hperm : (sortByJoiningDesc (coll.filter (skillMatch skill))).Perm
      (coll.filter (skillMatch skill)) := List.perm_insertionSort jdGe _
  refine ⟨hperm, List.sorted_insertionSort jdGe _, ?_, ?_⟩
  · intro d hd
    exact (List.mem_filter.mp (hperm.subset hd)).2
  · have hmem : ∀ x ∈ sortByJoiningDesc (coll.filter (skillMatch skill)),
        (employee_helper x).isSome = true :=
      fun x hx => hwf x (List.mem_of_mem_filter (hperm.subset hx))
    rw [search_by_skill, marshalAll_eq_filterMap hmem]

/-- C9 witness: searching "rust" over the three sample employees returns
exactly E1 and E3 (the two whose skills include "rust"), newest first. -/
theorem search_by_skill_spec_check :
    search_by_skill "rust" [dEng1, dEng2, dSales] = .ok [outEng1, outSales]
    ∧ (sortByJoiningDesc ([dEng1, dEng2, dSales].filter (skillMatch "rust"))).Pairwise jdGe := by
  have h := search_by_skill_spec "rust" [dEng1, dEng2, dSales] (by decide)
  exact ⟨by rw [h.2.2.2]; rfl, h.2.1⟩

/-- C5: the aggregation returns one row per department occurring among the
documents whose salary is present and integer-typed and whose department
is present (and only those documents feed the groups); each row carries
that department exactly once together with the group's salary mean rounded
to the nearest integer, i.e. within one half of the exact rational mean. -/
theorem avg_salary_by_department_spec (coll : List EDoc) :
    ((avg_salary_by_department coll).map Prod.fst).Nodup
    ∧ (∀ dep : String, (∃ avg, (dep, avg) ∈ avg_salary_by_department coll) ↔
        ∃ d ∈ coll, aggMatch d = true ∧ d.department = some dep)
    ∧ (∀ dep avg, (dep, avg) ∈ avg_salary_by_department coll →
        avg = roundedAvg (salariesOf coll dep)
        ∧ salariesOf coll dep ≠ []
        ∧ |(avg : Rat) - meanOf (salariesOf coll dep)| ≤ 1 / 2) := by
  have hfst : (avg_salary_by_department coll).map Prod.fst = aggDepts coll := by
    rw [avg_salary_by_department, List.map_map]
    have hcomp : (Prod.fst ∘ fun dep => (dep, roundedAvg (salariesOf coll dep))) =
        (id : String → String) := by
      funext x; rfl
    rw [hcomp, List.map_id]
  have hrow : ∀ dep avg, (dep, avg) ∈ avg_salary_by_department coll ↔
      (dep ∈ aggDepts coll ∧ avg = roundedAvg (salariesOf coll dep)) := by
    intro dep avg
    rw [avg_salary_by_department, List.mem_map]
    constructor
    · rintro ⟨x, hx, hxe⟩
      obtain ⟨h1, h2⟩ := Prod.mk.injEq .. ▸ hxe
      exact ⟨h1 ▸ hx, h1 ▸ h2.symm⟩
    · rintro ⟨hdep, rfl⟩
      exact ⟨dep, hdep, rfl⟩
  have hdepschar : ∀ dep : String, dep ∈ aggDepts coll ↔
      ∃ d ∈ coll, aggMatch d = true ∧ d.department = some dep := by
    intro dep
    rw [aggDepts, mem_dedupFirst]
    simp only [List.mem_filterMap, List.mem_filter, List.not_mem_nil, not_false_iff, and_true]
    constructor
    · rintro ⟨d, ⟨hdc, hdm⟩, hdd⟩
      exact ⟨d, hdc, hdm, hdd⟩
    · rintro ⟨d, hdc, hdm, hdd⟩
      exact ⟨d, ⟨hdc, hdm⟩, hdd⟩
  have hnonempty : ∀ dep : String, dep ∈ aggDepts coll → salariesOf coll dep ≠ [] := by
    intro dep hdep
    obtain ⟨d, hdc, hdm, hdd⟩ := (hdepschar dep).mp hdep
    obtain ⟨n, hn⟩ : ∃ n : Int, d.salary = some (.vint n) := by
      rw [aggMatch, Bool.and_eq_true] at hdm
      cases hs : d.salary with
      | none => rw [hs] at hdm; simp at hdm
      | some v =>
          cases v with
          | vint n => exact ⟨n, rfl⟩
          | vother => rw [hs] at hdm; simp at hdm
    have hmem : n ∈ salariesOf coll dep := by
      rw [salariesOf, List.mem_filterMap]
      refine ⟨d, List.mem_filter.mpr ⟨hdc, hdm⟩, ?_⟩
      rw [hdd, hn]
      simp
    exact List.ne_nil_of_mem hmem
  refine ⟨?_, ?_, ?_⟩
  · rw [hfst]; exact nodup_dedupFirst _ _
  · intro dep
    constructor
    · rintro ⟨avg, havg⟩
      exact (hdepschar dep).mp ((hrow dep avg).mp havg).1
    · intro hd
      exact ⟨roundedAvg (salariesOf coll dep), (hrow dep _).mpr ⟨(hdepschar dep).mpr hd, rfl⟩⟩
  · intro dep avg havg
    obtain ⟨hdep, rfl⟩ := (hrow dep avg).mp havg
    have hne := hnonempty dep hdep
    exact ⟨rfl, hne, roundedAvg_close hne⟩

/-- C5 witness: over Eng salaries 100 and 200 and a Sales salary 50, the
rows are exactly Eng with 150 and Sales with 50, and 150 is within one
half of the exact Eng mean. -/
theorem avg_salary_by_department_spec_check :
    avg_salary_by_department [dEng1, dEng2, dSales] = [("Eng", 150), ("Sales", 50)]
    ∧ |((150 : Int) : Rat) - meanOf (salariesOf [dEng1, dEng2, dSales] "Eng")| ≤ 1 / 2 := by
  have h := avg_salary_by_department_spec [dEng1, dEng2, dSales]
  exact ⟨by rfl, (h.2.2 "Eng" 150 (by decide)).2.2⟩

/-- C7: evaluation at the failing input. A correctly signed, unexpired
token for stored user bob, whose disabled flag is true, passes the
spec-modelled auth middleware, which returns the user so the protected
operation runs, instead of rejecting the request with 401 as the claim
requires; the spec itself records that the original never checks disabled
after the lookup. -/
theorem disabled_user_not_rejected :
    userDisabled.disabled = true
    ∧ get_current_active_user 5 0 [userDisabled] (create_access_token 5 "bob" 0 30) =
        .ok userDisabled :=
  ⟨rfl, rfl⟩

/-- C8: a token issued for subject s with TTL ttl at time t0 verifies to
exactly s at any time strictly before expiry t0 + ttl, and verification
fails with Invalid at any time strictly after t0 + ttl (spec-modelled
issuer and verifier; signature and payload untouched in between). -/
theorem verify_token_expiry_spec (key : Nat) (s : String) (t0 ttl now : Nat) :
    (t0 + ttl < now →
      verify_token key now (create_access_token key s t0 ttl) = .error "Invalid")
    ∧ (now < t0 + ttl →
      verify_token key now (create_access_token key s t0 ttl) = .ok s) := by
  constructor
  · intro h
    simp [verify_token, create_access_token, le_of_lt h]
  · intro h
    simp [verify_token, create_access_token, not_le.mpr h]

/-- C8 witness: a token for alice with TTL 30 issued at time 10 is rejected
at time 41 and accepted, yielding subject alice, at time 39. -/
theorem verify_token_expiry_spec_check :
    verify_token 11 41 (create_access_token 11 "alice" 10 30) = .error "Invalid"
    ∧ verify_token 11 39 (create_access_token 11 "alice" 10 30) = .ok "alice" :=
  ⟨(verify_token_expiry_spec 11 "alice" 10 30 41).1 (by decide),
   (verify_token_expiry_spec 11 "alice" 10 30 39).2 (by decide)⟩
